import Mathlib

/-!
# Verification of the metrics-mini aggregation core

A shallow embedding of the Rust sources under `src/metrics/src/` (`common.rs`,
`attributes.rs`, `metricpoint.rs`, `counter.rs`, `meter.rs`, `meter_provider.rs`)
together with proofs settling the frozen claims about the spec.

Modelling conventions:
* Rust strings (`Key`, `StringValue`, registry names) are represented by their
  UTF-8 byte content, `Str := List Nat` (each entry `< 256`); Rust `str`
  equality and ordering are byte-content equality and lexicographic byte order,
  which the model mirrors exactly (`OtelString::eq`/`cmp` go through `as_str`).
* `f64` values are represented by their IEEE-754 bit pattern (a `Nat < 2^64`),
  because both the code's hashing (`F64Hashable`, via `to_bits`) and the
  discriminating examples are bit-level.  The derived `PartialEq` on `Value`
  compares `f64` with IEEE `==`, which is modelled bit-precisely by `f64Eq`.
* Machine integers are `Nat` with explicit reduction `% 2^64` / `% 2^32` where
  the code wraps (`fetch_add` on `AtomicU64`/`AtomicUsize`, `as u32` casts).
* `Arc<MetricPointInner>` sharing is modelled by an arena: the counter state
  carries `points : List Nat` (the accumulator sums) and the map stores arena
  indices, so two map entries holding the same index alias one accumulator.
* `std::collections::HashMap` is modelled as an association list: `get` finds
  the first entry whose key equals the query, `insert` replaces the value of
  the first equal key (keeping the stored key, as `HashMap::insert` does) or
  appends.  This is faithful because `MetricAttributes`' `Hash` writes exactly
  its `hash_value` field, which its derived `PartialEq` also compares, so equal
  keys always collide into the same bucket.  Iteration/drain order of a
  `HashMap` is arbitrary; the list model fixes one order, and every claim
  settled below is insensitive to row order (totals, lengths, single-row
  snapshots).
* The hasher `std::hash::DefaultHasher` is SipHash-1-3 with both keys zero; it
  is implemented bit-faithfully below, together with the byte streams the
  `Hash` implementations of `KeyValue` and its components feed into it.
-/

/-- Rust string content: UTF-8 bytes. -/
abbrev Str : Type := List Nat

/-- 2^64, the modulus of `u64`/`usize` (64-bit target) arithmetic. -/
def M64 : Nat := 18446744073709551616

/-- 2^32, the modulus of `u32` arithmetic. -/
def M32 : Nat := 4294967296

/-! ## The attribute value model (`common.rs`) -/

/-- `Value` from `common.rs`: tagged union over bool, i64, f64 (as bit
pattern), string and homogeneous arrays thereof. -/
inductive Value : Type where
  | vBool (b : Bool)
  | vI64 (i : Int)
  | vF64 (bits : Nat)
  | vStr (s : Str)
  | vArrBool (l : List Bool)
  | vArrI64 (l : List Int)
  | vArrF64 (l : List Nat)
  | vArrStr (l : List Str)
deriving DecidableEq, Repr

/-- `KeyValue` from `common.rs`: a key (string content) and a value. -/
structure KeyValue : Type where
  key : Str
  value : Value
deriving DecidableEq, Repr

/-- IEEE-754 binary64: NaN bit patterns (exponent all ones, mantissa nonzero). -/
def f64IsNaN (bits : Nat) : Bool :=
  decide ((bits / 4503599627370496) % 2048 = 2047) && decide (bits % 4503599627370496 ≠ 0)

/-- IEEE-754 binary64: the two zero bit patterns `0.0` and `-0.0`. -/
def f64IsZero (bits : Nat) : Bool :=
  decide (bits = 0) || decide (bits = 9223372036854775808)

/-- IEEE `f64 == f64`, bit-level: NaN equals nothing, the two zeros are equal,
and otherwise two finite/infinite values are equal exactly when their bit
patterns coincide.  This is what the derived `PartialEq` on `Value::F64` uses. -/
def f64Eq (a b : Nat) : Bool :=
  !f64IsNaN a && !f64IsNaN b && (decide (a = b) || (f64IsZero a && f64IsZero b))

/-- Elementwise IEEE equality of `Vec<f64>` (derived `PartialEq` on
`Array::F64`): equal lengths and elementwise `f64Eq`. -/
def listF64Eq : List Nat → List Nat → Bool
  | [], [] => true
  | a :: as', b :: bs' => f64Eq a b && listF64Eq as' bs'
  | _, _ => false

/-- The derived `PartialEq` on `Value` (`common.rs` line 294): same constructor
and componentwise equality, with `f64` compared by IEEE `==`. -/
def valueEqRust : Value → Value → Bool
  | .vBool a, .vBool b => a == b
  | .vI64 a, .vI64 b => a == b
  | .vF64 a, .vF64 b => f64Eq a b
  | .vStr a, .vStr b => decide (a = b)
  | .vArrBool a, .vArrBool b => a == b
  | .vArrI64 a, .vArrI64 b => a == b
  | .vArrF64 a, .vArrF64 b => listF64Eq a b
  | .vArrStr a, .vArrStr b => decide (a = b)
  | _, _ => false

/-- The derived `PartialEq` on `KeyValue` (`common.rs` line 453): key equality
(string content, via `OtelString`) and value equality. -/
def kvEqRust (a b : KeyValue) : Bool :=
  decide (a.key = b.key) && valueEqRust a.value b.value

/-- `Vec<KeyValue>` equality under the derived `PartialEq`: equal lengths and
elementwise `kvEqRust`. -/
def seqEqRust : List KeyValue → List KeyValue → Bool
  | [], [] => true
  | a :: as', b :: bs' => kvEqRust a b && seqEqRust as' bs'
  | _, _ => false

/-! ## Byte streams fed into the hasher

Each Rust `Hash` implementation writes a sequence of bytes into the hasher;
`DefaultHasher::finish` is a pure function (SipHash-1-3) of that stream.  The
streams are reproduced from the `Hash` impls in `common.rs`:
* `str` writes its UTF-8 bytes followed by the terminator byte `0xff`;
* `write_u64`/`write_i64`/`write_usize` write 8 little-endian bytes;
* `bool` writes one byte `0`/`1`;
* `Vec<T>` writes a `usize` length prefix then each element — except that
  `KeyValue::hash` iterates `Array::F64` directly through `F64Hashable`
  without a length prefix (`common.rs` line 164);
* `KeyValue::hash` (`common.rs` lines 156–172) writes the key, then the value
  with no enum discriminant.
-/

/-- 8 little-endian bytes of a value `< 2^64`. -/
def le8 (n : Nat) : List Nat :=
  [n % 256, n / 256 % 256, n / 65536 % 256, n / 16777216 % 256,
   n / 4294967296 % 256, n / 1099511627776 % 256,
   n / 281474976710656 % 256, n / 72057594037927936 % 256]

/-- Two's-complement `u64` bit pattern of an `i64` value. -/
def intToU64 (i : Int) : Nat := (i % (18446744073709551616 : Int)).toNat

/-- Bytes written for a `str`: content then `0xff` (`Hasher::write_str`). -/
def strBytes (s : Str) : List Nat := s ++ [255]

/-- Bytes a single array element writes (see `KeyValue::hash`). -/
def valueBytes : Value → List Nat
  | .vBool b => [if b then 1 else 0]
  | .vI64 i => le8 (intToU64 i)
  | .vF64 bits => le8 bits
  | .vStr s => strBytes s
  | .vArrBool l => le8 l.length ++ l.foldr (fun b acc => (if b then 1 else 0) :: acc) []
  | .vArrI64 l => le8 l.length ++ l.foldr (fun i acc => le8 (intToU64 i) ++ acc) []
  | .vArrF64 l => l.foldr (fun bits acc => le8 bits ++ acc) []
  | .vArrStr l => le8 l.length ++ l.foldr (fun s acc => strBytes s ++ acc) []

/-- Bytes `KeyValue::hash` writes: the key as a string, then the value. -/
def kvBytes (kv : KeyValue) : List Nat := strBytes kv.key ++ valueBytes kv.value

/-- Bytes `calculate_hash` (`attributes.rs`) feeds: each pair in sequence. -/
def kvListBytes (l : List KeyValue) : List Nat :=
  l.foldr (fun kv acc => kvBytes kv ++ acc) []

/-! ## SipHash (the `DefaultHasher`) -/

/-- The four 64-bit state words of SipHash. -/
structure SipState : Type where
  v0 : Nat
  v1 : Nat
  v2 : Nat
  v3 : Nat
deriving Repr

/-- Left rotation of a 64-bit word. -/
def rotl64 (x r : Nat) : Nat := ((x <<< r) % M64) ||| (x >>> (64 - r))

/-- One SipHash round. -/
def sipRound (s : SipState) : SipState :=
  let v0 := (s.v0 + s.v1) % M64
  let v1 := rotl64 s.v1 13
  let v1 := v1 ^^^ v0
  let v0 := rotl64 v0 32
  let v2 := (s.v2 + s.v3) % M64
  let v3 := rotl64 s.v3 16
  let v3 := v3 ^^^ v2
  let v0 := (v0 + v3) % M64
  let v3 := rotl64 v3 21
  let v3 := v3 ^^^ v0
  let v2 := (v2 + v1) % M64
  let v1 := rotl64 v1 17
  let v1 := v1 ^^^ v2
  let v2 := rotl64 v2 32
  ⟨v0, v1, v2, v3⟩

/-- Iterate `sipRound`. -/
def sipRounds : Nat → SipState → SipState
  | 0, s => s
  | n + 1, s => sipRounds n (sipRound s)

/-- Value of up to 8 bytes read little-endian. -/
def leVal (bs : List Nat) : Nat := bs.foldr (fun b acc => b + 256 * acc) 0

/-- Split a byte stream into full 8-byte little-endian words plus a remainder
of fewer than 8 bytes. -/
def sipWords : List Nat → List Nat × List Nat
  | b0 :: b1 :: b2 :: b3 :: b4 :: b5 :: b6 :: b7 :: rest =>
    let p := sipWords rest
    (leVal [b0, b1, b2, b3, b4, b5, b6, b7] :: p.1, p.2)
  | rest => ([], rest)

/-- Compress one message word with `c` rounds. -/
def sipCompress (c : Nat) (s : SipState) (m : Nat) : SipState :=
  let s := { s with v3 := s.v3 ^^^ m }
  let s := sipRounds c s
  { s with v0 := s.v0 ^^^ m }

/-- SipHash-c-d of a byte stream under key `(k0, k1)`. -/
def sipHash (c d k0 k1 : Nat) (msg : List Nat) : Nat :=
  let s : SipState :=
    ⟨k0 ^^^ 8317987319222330741, k1 ^^^ 7237128888997146477,
     k0 ^^^ 7816392313619706465, k1 ^^^ 8387220255154660723⟩
  let w := sipWords msg
  let s := w.1.foldl (sipCompress c) s
  let b := (msg.length % 256) * 72057594037927936 + leVal w.2
  let s := sipCompress c s b
  let s := { s with v2 := s.v2 ^^^ 255 }
  let s := sipRounds d s
  s.v0 ^^^ s.v1 ^^^ s.v2 ^^^ s.v3

/-- `DefaultHasher`: SipHash-1-3 with both keys zero (`DefaultHasher::new`). -/
def defaultHash (msg : List Nat) : Nat := sipHash 1 3 0 0 msg

/-! ## Attribute-set identity (`attributes.rs`) -/

/-- `calculate_hash` (`attributes.rs` lines 35–42): a fresh `DefaultHasher`
is fed every pair's `Hash` bytes in sequence order, then finished. -/
def calculate_hash (values : List KeyValue) : Nat := defaultHash (kvListBytes values)

/-- `MetricAttributes` (`attributes.rs`): the verbatim sequence plus the
precomputed combined hash. -/
structure MetricAttributes : Type where
  attributes : List KeyValue
  hash_value : Nat
deriving Repr

/-- Both constructors `MetricAttributes::new` and `new_from_vec`: store the
sequence and its computed hash. -/
def MetricAttributes.mk' (attributes : List KeyValue) : MetricAttributes :=
  ⟨attributes, calculate_hash attributes⟩

/-- The derived `PartialEq` on `MetricAttributes`: both fields must agree —
the sequences elementwise (Rust `Vec<KeyValue>` equality) and the precomputed
hashes. -/
def maEq (a b : MetricAttributes) : Bool :=
  seqEqRust a.attributes b.attributes && decide (a.hash_value = b.hash_value)

/-! ## Stable sort by key (`counter.rs` line 92)

`attributes_as_vec.sort_by(|a, b| a.key.cmp(&b.key))` is Rust's stable sort
under the total preorder "compare keys lexicographically".  A stable sort for
a total preorder is unique, so it is modelled by insertion sort that inserts
each element after all already-placed elements whose key is less than or
equal to its own (preserving the original relative order of equal keys). -/

/-- Lexicographic byte order on string content, `a ≤ b` (Rust `str::cmp`). -/
def strLe : Str → Str → Bool
  | [], _ => true
  | _ :: _, [] => false
  | a :: as', b :: bs' =>
    if a < b then true else if b < a then false else strLe as' bs'

/-- Insert one pair after every already-sorted pair with key `≤` its own. -/
def insertByKey (x : KeyValue) : List KeyValue → List KeyValue
  | [] => [x]
  | y :: ys => if strLe y.key x.key then y :: insertByKey x ys else x :: y :: ys

/-- The key-sorted copy of an attribute list (stable, by key only). -/
def sortByKey (l : List KeyValue) : List KeyValue :=
  l.foldl (fun acc x => insertByKey x acc) []

/-! ## Accumulators (`metricpoint.rs`) and the counter (`counter.rs`) -/

/-- `MetricPointInner::new` (`metricpoint.rs` line 33): the backing
`AtomicU64` sum starts at 1 — not 0. -/
def metricPointNew : Nat := 1

/-- `MetricPointInner::add`: wrapping `fetch_add` on the `u64` sum. -/
def metricPointAdd (sum v : Nat) : Nat := (sum + v) % M64

/-- `MetricPointInner::get_sum`: the `u64` sum truncated `as u32`. -/
def metricPointGetSum (sum : Nat) : Nat := sum % M32

/-- `Metric` (`metric.rs`): a name and the list of
(attribute sequence, reported `u32` value) rows. -/
structure Metric : Type where
  name : Str
  metric_points : List (List KeyValue × Nat)
deriving Repr

/-- `CounterInner`: the map from attribute identity to accumulator (an arena
index standing for the shared `Arc<MetricPointInner>`), the arena of
accumulator sums, and the dedicated zero-attribute `AtomicUsize`. -/
structure CounterInner : Type where
  name : Str
  metric_points_map : List (MetricAttributes × Nat)
  points : List Nat
  zero_attribute_point : Nat
deriving Repr

/-- `CounterInner::new`: empty map, zero-attribute accumulator at 0. -/
def CounterInner.new (name : Str) : CounterInner := ⟨name, [], [], 0⟩

/-- `HashMap::get` on the model: first entry whose stored key equals the
query under the derived `PartialEq`. -/
def lookupMA (m : List (MetricAttributes × Nat)) (q : MetricAttributes) : Option Nat :=
  match m with
  | [] => none
  | (k, v) :: rest => if maEq q k then some v else lookupMA rest q

/-- `HashMap::insert` on the model: replace the value of the first equal key,
keeping the stored key, else append. -/
def insertMA (m : List (MetricAttributes × Nat)) (q : MetricAttributes) (v : Nat) :
    List (MetricAttributes × Nat) :=
  match m with
  | [] => [(q, v)]
  | (k, w) :: rest =>
    if maEq q k then (k, v) :: rest else (k, w) :: insertMA rest q v

/-- Add `v` to the accumulator at arena index `idx` (the shared
`MetricPoint::add` through an aliased `Arc`). -/
def pointAdd (points : List Nat) (idx v : Nat) : List Nat :=
  points.set idx (metricPointAdd (points.getD idx 0) v)

/-- `CounterInner::add` (`counter.rs` lines 75–108), sequential semantics:
empty attributes go to the dedicated accumulator; otherwise look up the
as-submitted identity; on a miss, look up the key-sorted identity; on a
second miss create one accumulator (initial value 1), add `v`, and insert it
under both the as-submitted and the sorted identity. -/
def CounterInner.add (s : CounterInner) (v : Nat) (attributes : List KeyValue) :
    CounterInner :=
  if attributes.isEmpty then
    { s with zero_attribute_point := (s.zero_attribute_point + v) % M64 }
  else
    let metric_attributes := MetricAttributes.mk' attributes
    match lookupMA s.metric_points_map metric_attributes with
    | some idx => { s with points := pointAdd s.points idx v }
    | none =>
      let metric_attributes_sorted := MetricAttributes.mk' (sortByKey attributes)
      match lookupMA s.metric_points_map metric_attributes_sorted with
      | some idx => { s with points := pointAdd s.points idx v }
      | none =>
        let idx := s.points.length
        { s with
          points := s.points ++ [metricPointAdd metricPointNew v],
          metric_points_map :=
            insertMA (insertMA s.metric_points_map metric_attributes idx)
              metric_attributes_sorted idx }

/-- `CounterInner::collect` (`counter.rs` lines 54–73): drain every map entry
into a row `(entry.attributes, get_sum())`, append the zero-attribute row,
reset the zero-attribute accumulator, return the snapshot.  The drained
accumulators are dropped with the map. -/
def CounterInner.collect (s : CounterInner) : Metric × CounterInner :=
  (⟨s.name,
    s.metric_points_map.map
      (fun e => (e.1.attributes, metricPointGetSum (s.points.getD e.2 0)))
      ++ [([], s.zero_attribute_point % M32)]⟩,
   { s with metric_points_map := [], points := [], zero_attribute_point := 0 })

/-- Run a list of `(value, attributes)` submissions through `add`. -/
def runAdds (s : CounterInner) (l : List (Nat × List KeyValue)) : CounterInner :=
  l.foldl (fun s p => CounterInner.add s p.1 p.2) s

/-! ## Meter and provider registries (`meter.rs`, `meter_provider.rs`) -/

/-- `MeterInner`: name-keyed registry of counters.  `Arc<CounterInner>`
handles are modelled as arena indices into `arena`; two handles share state
exactly when they are the same index. -/
structure MeterInner : Type where
  name : Str
  counters : List (Str × Nat)
  arena : List CounterInner
deriving Repr

/-- Registry lookup: Rust `HashMap<String, _>::get` (string equality). -/
def lookupStr (m : List (Str × Nat)) (q : Str) : Option Nat :=
  match m with
  | [] => none
  | (k, v) :: rest => if q = k then some v else lookupStr rest q

/-- `MeterInner::create_counter` (`meter.rs` lines 44–54): return the
registered counter for `name` if present, else construct, register and
return a new one. -/
def MeterInner.create_counter (m : MeterInner) (name : Str) : Nat × MeterInner :=
  match lookupStr m.counters name with
  | some id => (id, m)
  | none =>
    (m.arena.length,
     { m with
       counters := m.counters ++ [(name, m.arena.length)],
       arena := m.arena ++ [CounterInner.new name] })

/-- `Counter::add` through a meter-held handle. -/
def MeterInner.addThrough (m : MeterInner) (id : Nat) (v : Nat)
    (attributes : List KeyValue) : MeterInner :=
  { m with
    arena := m.arena.set id (CounterInner.add (m.arena.getD id (CounterInner.new [])) v attributes) }

/-- `MeterProviderInner`: name-keyed registry of meters. -/
structure MeterProviderInner : Type where
  meters : List (Str × Nat)
  arena : List MeterInner
deriving Repr

/-- `MeterProviderInner::get_meter` (`meter_provider.rs` lines 58–67): return
the registered meter for `name` if present, else construct, register and
return a new one. -/
def MeterProviderInner.get_meter (p : MeterProviderInner) (name : Str) :
    Nat × MeterProviderInner :=
  match lookupStr p.meters name with
  | some id => (id, p)
  | none =>
    (p.arena.length,
     { p with
       meters := p.meters ++ [(name, p.arena.length)],
       arena := p.arena ++ [⟨name, [], []⟩] })

/-! ## Analysis predicates (spec side) -/

/-- Bit-level multiset equality of two attribute lists ("is a permutation of
that multiset" in the order-independence property). -/
def permOf : List KeyValue → List KeyValue → Bool
  | [], [] => true
  | [], _ :: _ => false
  | x :: xs, ys => decide (x ∈ ys) && permOf xs (ys.erase x)

/-- Total accumulated value over the snapshot rows whose attribute sequence
is a permutation of `base`. -/
def totalForBase (m : Metric) (base : List KeyValue) : Nat :=
  (m.metric_points.filter (fun r => permOf r.1 base)).foldl (fun acc r => acc + r.2) 0

/-- A list every element of which equals itself under the code's own
(derived, IEEE-float) `KeyValue` equality; false only in the presence of NaN
float content. -/
def goodList (l : List KeyValue) : Bool := l.all (fun kv => kvEqRust kv kv)

/-- The value carries no `f64` content (neither scalar nor array). -/
def valueNoF64 : Value → Bool
  | .vF64 _ => false
  | .vArrF64 _ => false
  | _ => true

/-- No pair in the list carries `f64` content. -/
def noF64 (l : List KeyValue) : Bool := l.all (fun kv => valueNoF64 kv.value)

/-- Named attribute pairs for the concrete scenarios: the keys are the byte
content of "k1"/"k2", the string values of "v1"/"v2". -/
def kvK1V1 : KeyValue := ⟨[107, 49], .vStr [118, 49]⟩

def kvK2V2 : KeyValue := ⟨[107, 50], .vStr [118, 50]⟩

/-- `{k1:v1, k2:v2}` in key-sorted order. -/
def attrs12 : List KeyValue := [kvK1V1, kvK2V2]

/-- `{k2:v2, k1:v1}`: the same logical set, opposite order. -/
def attrs21 : List KeyValue := [kvK2V2, kvK1V1]

/-- The bit pattern of `f64::NAN` (0x7ff8000000000000). -/
def nanBits : Nat := 9221120237041090560

/-- A pair whose value is `f64::NAN`, key "k". -/
def kvNaN : KeyValue := ⟨[107], .vF64 nanBits⟩

/-- A pair whose value is `0.0` (bit pattern 0), key "k". -/
def kvZero : KeyValue := ⟨[107], .vF64 0⟩

/-- A pair whose value is `-0.0` (bit pattern 2^63), key "k". -/
def kvNegZero : KeyValue := ⟨[107], .vF64 9223372036854775808⟩

/-! ## Map-model lemmas -/

theorem lookupMA_append_of_none {m : List (MetricAttributes × Nat)}
    {q : MetricAttributes} (h : lookupMA m q = none)
    (m' : List (MetricAttributes × Nat)) :
    lookupMA (m ++ m') q = lookupMA m' q := by
  induction m with
  | nil => rfl
  | cons e rest ih =>
    rw [lookupMA] at h
    rw [List.cons_append, lookupMA]
    split at h
    · exact absurd h (by simp)
    · next hne => rw [if_neg hne]; exact ih h

theorem insertMA_append_of_none {m : List (MetricAttributes × Nat)}
    {q : MetricAttributes} (h : lookupMA m q = none)
    (t : List (MetricAttributes × Nat)) (v : Nat) :
    insertMA (m ++ t) q v = m ++ insertMA t q v := by
  induction m with
  | nil => rfl
  | cons e rest ih =>
    rw [lookupMA] at h
    rw [List.cons_append, insertMA]
    split at h
    · exact absurd h (by simp)
    · next hne => rw [if_neg hne, List.cons_append, ih h]

theorem insertMA_of_none {m : List (MetricAttributes × Nat)}
    {q : MetricAttributes} (h : lookupMA m q = none) (v : Nat) :
    insertMA m q v = m ++ [(q, v)] := by
  have := insertMA_append_of_none h [] v
  simpa using this

/-! ## Reflexivity of the code's own equality on NaN-free content -/

theorem seqEqRust_refl_of_good {l : List KeyValue} (h : goodList l = true) :
    seqEqRust l l = true := by
  induction l with
  | nil => rfl
  | cons x xs ih =>
    rw [goodList, List.all_cons, Bool.and_eq_true] at h
    rw [seqEqRust, Bool.and_eq_true]
    exact ⟨h.1, ih h.2⟩

theorem maEq_mk_self {l : List KeyValue} (h : goodList l = true) :
    maEq (MetricAttributes.mk' l) (MetricAttributes.mk' l) = true := by
  rw [maEq, Bool.and_eq_true]
  exact ⟨seqEqRust_refl_of_good h, by simp⟩

theorem all_insertByKey {p : KeyValue → Bool} {x : KeyValue} {l : List KeyValue}
    (hl : l.all p = true) (hx : p x = true) : (insertByKey x l).all p = true := by
  induction l with
  | nil => simpa [insertByKey]
  | cons y ys ih =>
    rw [List.all_cons, Bool.and_eq_true] at hl
    rw [insertByKey]
    split
    · rw [List.all_cons, Bool.and_eq_true]
      exact ⟨hl.1, ih hl.2⟩
    · simp only [List.all_cons, Bool.and_eq_true]
      exact ⟨hx, hl.1, hl.2⟩

theorem all_sortByKey_aux {p : KeyValue → Bool} :
    ∀ (l acc : List KeyValue), acc.all p = true → l.all p = true →
      (l.foldl (fun acc x => insertByKey x acc) acc).all p = true := by
  intro l
  induction l with
  | nil => intro acc ha _; simpa using ha
  | cons x xs ih =>
    intro acc ha hl
    rw [List.all_cons, Bool.and_eq_true] at hl
    rw [List.foldl_cons]
    exact ih _ (all_insertByKey ha hl.1) hl.2

theorem goodList_sortByKey {l : List KeyValue} (h : goodList l = true) :
    goodList (sortByKey l) = true :=
  all_sortByKey_aux l [] rfl h

/-! ## The stable sort is a permutation -/

theorem insertByKey_perm (x : KeyValue) (l : List KeyValue) :
    List.Perm (insertByKey x l) (x :: l) := by
  induction l with
  | nil => exact List.Perm.refl _
  | cons y ys ih =>
    rw [insertByKey]
    split
    · exact (ih.cons y).trans (List.Perm.swap x y ys)
    · exact List.Perm.refl _

theorem foldl_insertByKey_perm :
    ∀ (l acc : List KeyValue),
      List.Perm (l.foldl (fun acc x => insertByKey x acc) acc) (acc ++ l) := by
  intro l
  induction l with
  | nil => intro acc; simp
  | cons x xs ih =>
    intro acc
    rw [List.foldl_cons]
    refine ((ih (insertByKey x acc)).trans ?_)
    refine ((insertByKey_perm x acc).append_right xs).trans ?_
    exact List.perm_middle.symm

theorem sortByKey_perm (l : List KeyValue) : List.Perm (sortByKey l) l := by
  simpa using foldl_insertByKey_perm l []

theorem permOf_of_perm : ∀ {l₁ l₂ : List KeyValue}, List.Perm l₁ l₂ →
    permOf l₁ l₂ = true := by
  intro l₁
  induction l₁ with
  | nil =>
    intro l₂ h
    rw [h.symm.eq_nil]
    rfl
  | cons x xs ih =>
    intro l₂ h
    have hx : x ∈ l₂ := h.subset (List.mem_cons_self x xs)
    have hrest : List.Perm xs (l₂.erase x) :=
      (h.trans (List.perm_cons_erase hx)).cons_inv
    rw [permOf, Bool.and_eq_true, decide_eq_true_eq]
    exact ⟨hx, ih hrest⟩

theorem permOf_refl (l : List KeyValue) : permOf l l = true :=
  permOf_of_perm (List.Perm.refl l)

theorem permOf_sortByKey (l : List KeyValue) : permOf (sortByKey l) l = true :=
  permOf_of_perm (sortByKey_perm l)

theorem permOf_nil_of_ne {l : List KeyValue} (h : l ≠ []) :
    permOf [] l = false := by
  cases l with
  | nil => exact absurd rfl h
  | cons a as => rfl

/-! ## Counter dynamics -/

/-- Unfolding of `CounterInner::add` on non-empty attributes. -/
theorem CounterInner.add_cons (s : CounterInner) (v : Nat) (x : KeyValue)
    (xs : List KeyValue) :
    CounterInner.add s v (x :: xs) =
      (match lookupMA s.metric_points_map (MetricAttributes.mk' (x :: xs)) with
       | some idx => { s with points := pointAdd s.points idx v }
       | none =>
         match lookupMA s.metric_points_map
             (MetricAttributes.mk' (sortByKey (x :: xs))) with
         | some idx => { s with points := pointAdd s.points idx v }
         | none =>
           { s with
             points := s.points ++ [metricPointAdd metricPointNew v],
             metric_points_map :=
               insertMA
                 (insertMA s.metric_points_map (MetricAttributes.mk' (x :: xs))
                   s.points.length)
                 (MetricAttributes.mk' (sortByKey (x :: xs))) s.points.length }) :=
  rfl

/-- The map a fresh counter holds after its first labeled `add` under
ordering `a`: the as-submitted entry, and — unless it collides with it — the
key-sorted entry, both aliasing accumulator 0. -/
def mapZero (a : List KeyValue) : List (MetricAttributes × Nat) :=
  if maEq (MetricAttributes.mk' (sortByKey a)) (MetricAttributes.mk' a)
  then [(MetricAttributes.mk' a, 0)]
  else [(MetricAttributes.mk' a, 0), (MetricAttributes.mk' (sortByKey a), 0)]

/-- First labeled `add` on a fresh counter: one accumulator is created at
initial value 1 plus the added value, inserted under both identities. -/
theorem add_fresh (nm : Str) (v : Nat) {a : List KeyValue} (ha : a ≠ []) :
    CounterInner.add (CounterInner.new nm) v a =
      ⟨nm, mapZero a, [(1 + v) % M64], 0⟩ := by
  cases a with
  | nil => exact absurd rfl ha
  | cons x xs =>
    rw [CounterInner.add_cons]
    simp only [CounterInner.new, lookupMA, insertMA, mapZero, metricPointAdd,
      metricPointNew, List.nil_append, List.length_nil]

/-- Any further labeled `add` whose key-sorted copy coincides with the first
ordering's sorted copy leaves the map unchanged and lands in the single
accumulator. -/
theorem add_step (nm : Str) (v acc : Nat) {a b : List KeyValue}
    (hb : b ≠ []) (hsort : sortByKey b = sortByKey a)
    (hgood : goodList (sortByKey a) = true) :
    CounterInner.add ⟨nm, mapZero a, [acc], 0⟩ v b
      = ⟨nm, mapZero a, [(acc + v) % M64], 0⟩ := by
  have hSS : maEq (MetricAttributes.mk' (sortByKey a))
      (MetricAttributes.mk' (sortByKey a)) = true := maEq_mk_self hgood
  cases b with
  | nil => exact absurd rfl hb
  | cons x xs =>
    rw [CounterInner.add_cons]
    rw [show sortByKey (x :: xs) = sortByKey a from hsort]
    simp only [mapZero]
    cases hc : maEq (MetricAttributes.mk' (sortByKey a)) (MetricAttributes.mk' a) with
    | true =>
      simp only [hc, if_true, lookupMA]
      cases h1 : maEq (MetricAttributes.mk' (x :: xs)) (MetricAttributes.mk' a) with
      | true => simp [pointAdd, metricPointAdd]
      | false => simp [hc, pointAdd, metricPointAdd]
    | false =>
      simp only [hc, if_false, Bool.false_eq_true, lookupMA]
      cases h1 : maEq (MetricAttributes.mk' (x :: xs)) (MetricAttributes.mk' a) with
      | true => simp [pointAdd, metricPointAdd]
      | false =>
        cases h2 : maEq (MetricAttributes.mk' (x :: xs))
            (MetricAttributes.mk' (sortByKey a)) with
        | true => simp [h1, h2, pointAdd, metricPointAdd]
        | false => simp [h1, h2, hc, hSS, pointAdd, metricPointAdd]

/-- Total of the submitted values of a list of `(value, attributes)` calls. -/
def sumVals : List (Nat × List KeyValue) → Nat
  | [] => 0
  | p :: ps => p.1 + sumVals ps

theorem runAdds_cons (s : CounterInner) (p : Nat × List KeyValue)
    (rest : List (Nat × List KeyValue)) :
    runAdds s (p :: rest) = runAdds (CounterInner.add s p.1 p.2) rest :=
  rfl

theorem runAdds_steps (nm : Str) {a : List KeyValue}
    (hgood : goodList (sortByKey a) = true) :
    ∀ (rest : List (Nat × List KeyValue)) (acc : Nat), acc < M64 →
      (∀ p ∈ rest, p.2 ≠ [] ∧ sortByKey p.2 = sortByKey a) →
      runAdds ⟨nm, mapZero a, [acc], 0⟩ rest
        = ⟨nm, mapZero a, [(acc + sumVals rest) % M64], 0⟩ := by
  intro rest
  induction rest with
  | nil =>
    intro acc hacc _
    simp [runAdds, sumVals, Nat.mod_eq_of_lt hacc]
  | cons p ps ih =>
    intro acc hacc hall
    have hp := hall p (List.mem_cons_self p ps)
    rw [runAdds_cons, add_step nm p.1 acc hp.1 hp.2 hgood]
    rw [ih ((acc + p.1) % M64) (Nat.mod_lt _ (by decide))
      (fun q hq => hall q (List.mem_cons_of_mem p hq))]
    rw [Nat.mod_add_mod, sumVals, Nat.add_assoc]

/-- The state a fresh counter reaches after a first labeled `add` of `v₀`
under ordering `a` followed by any further `add`s whose attribute lists all
key-sort to `sortByKey a`: the map holds the first ordering's entry and (if
distinct) the sorted entry, both aliasing the single accumulator, whose
`u64` sum is `1 + v₀ + Σ` (initial value 1 plus every submitted value). -/
theorem runAdds_inv (nm : Str) (v₀ : Nat) {a : List KeyValue}
    (rest : List (Nat × List KeyValue)) (ha : a ≠ [])
    (hga : goodList a = true)
    (hrest : ∀ p ∈ rest, p.2 ≠ [] ∧ sortByKey p.2 = sortByKey a) :
    runAdds (CounterInner.new nm) ((v₀, a) :: rest)
      = ⟨nm, mapZero a, [(1 + v₀ + sumVals rest) % M64], 0⟩ := by
  rw [runAdds_cons, add_fresh nm v₀ ha]
  rw [runAdds_steps nm (goodList_sortByKey hga) rest ((1 + v₀) % M64)
    (Nat.mod_lt _ (by decide)) hrest]
  rw [Nat.mod_add_mod]

/-! ## Rust equality determines the hash stream on float-free content -/

theorem valueBytes_eq_of_eqRust {v w : Value} (hnf : valueNoF64 v = true)
    (heq : valueEqRust v w = true) : valueBytes w = valueBytes v := by
  cases v <;> cases w <;> simp_all [valueEqRust, valueNoF64, valueBytes]

theorem kvListBytes_eq_of_seqEq {a : List KeyValue} :
    ∀ {b : List KeyValue}, noF64 a = true → seqEqRust a b = true →
      kvListBytes b = kvListBytes a := by
  induction a with
  | nil =>
    intro b _ heq
    cases b with
    | nil => rfl
    | cons y ys => exact absurd heq (by simp [seqEqRust])
  | cons x xs ih =>
    intro b hnf heq
    cases b with
    | nil => exact absurd heq (by simp [seqEqRust])
    | cons y ys =>
      rw [seqEqRust, Bool.and_eq_true] at heq
      rw [kvEqRust, Bool.and_eq_true, decide_eq_true_eq] at heq
      rw [noF64, List.all_cons, Bool.and_eq_true] at hnf
      show kvBytes y ++ kvListBytes ys = kvBytes x ++ kvListBytes xs
      rw [kvBytes, kvBytes, heq.1.1,
        valueBytes_eq_of_eqRust hnf.1 heq.1.2, ih hnf.2 heq.2]

theorem calculate_hash_eq_of_seqEq {a b : List KeyValue} (hnf : noF64 a = true)
    (heq : seqEqRust a b = true) : calculate_hash b = calculate_hash a := by
  rw [calculate_hash, calculate_hash, kvListBytes_eq_of_seqEq hnf heq]

/-! ## Registry lemma -/

theorem lookupStr_append_self {m : List (Str × Nat)} {n : Str}
    (h : lookupStr m n = none) (i : Nat) :
    lookupStr (m ++ [(n, i)]) n = some i := by
  induction m with
  | nil => simp [lookupStr]
  | cons e rest ih =>
    rw [lookupStr] at h
    rw [List.cons_append, lookupStr]
    split at h
    · exact absurd h (by simp)
    · next hne => rw [if_neg hne]; exact ih h

/-! ## Claim theorems -/

/-- C3.  Drain/reset: in every counter state, a `collect` immediately after a
`collect` (no intervening `add`) returns a snapshot whose only row is the
zero-attribute row with value 0, and leaves the counter empty:
`collect` drains the labeled map completely and stores 0 into the
zero-attribute accumulator. -/
theorem C3_drain_reset (s : CounterInner) :
    CounterInner.collect ((CounterInner.collect s).2)
      = (⟨s.name, [([], 0)]⟩, ⟨s.name, [], [], 0⟩) :=
  rfl

/-- C6.  Zero-attribute isolation: `add(v, [])` only bumps the dedicated
zero-attribute accumulator (mod 2^64, it is an `AtomicUsize`), leaving the
labeled map and every labeled accumulator untouched; conversely `add` with
non-empty attributes never changes the zero-attribute accumulator. -/
theorem C6_zero_attribute_isolation (s : CounterInner) (v : Nat) :
    (CounterInner.add s v []
      = { s with zero_attribute_point := (s.zero_attribute_point + v) % M64 })
    ∧ (∀ attrs, attrs ≠ [] →
        (CounterInner.add s v attrs).zero_attribute_point
          = s.zero_attribute_point) := by
  refine ⟨rfl, ?_⟩
  intro attrs h
  cases attrs with
  | nil => exact absurd rfl h
  | cons x xs =>
    rw [CounterInner.add_cons]
    cases h1 : lookupMA s.metric_points_map (MetricAttributes.mk' (x :: xs)) with
    | some idx => simp
    | none =>
      cases h2 : lookupMA s.metric_points_map
          (MetricAttributes.mk' (sortByKey (x :: xs))) with
      | some idx => simp
      | none => simp

/-- Witness for C6 at a concrete state and concrete attribute lists. -/
theorem C6_zero_attribute_isolation_witness :
    (CounterInner.add (CounterInner.new [99]) 5 []
      = { CounterInner.new [99] with
          zero_attribute_point :=
            ((CounterInner.new [99]).zero_attribute_point + 5) % M64 })
    ∧ (CounterInner.add (CounterInner.new [99]) 5 attrs12).zero_attribute_point
        = (CounterInner.new [99]).zero_attribute_point :=
  ⟨(C6_zero_attribute_isolation (CounterInner.new [99]) 5).1,
   (C6_zero_attribute_isolation (CounterInner.new [99]) 5).2 attrs12 (by decide)⟩

/-- C10.  Accumulation width and truncation: an accumulator's backing sum is
a `u64` (`add` wraps mod 2^64) while the reported value is the sum cast
`as u32`, i.e. reduced mod 2^32; the reported value equals the internal sum
exactly when that sum is below 2^32, so magnitude is silently lost exactly
when the accumulated `u64` sum exceeds the `u32` range. -/
theorem C10_truncation (sum : Nat) :
    metricPointGetSum sum = sum % M32
    ∧ (metricPointGetSum sum = sum ↔ sum < M32)
    ∧ ∀ v, metricPointAdd sum v = (sum + v) % M64 := by
  refine ⟨rfl, ?_, fun v => rfl⟩
  constructor
  · intro h
    have h2 : sum % M32 = sum := h
    have h3 : sum % M32 < M32 := Nat.mod_lt _ (by decide)
    rw [h2] at h3
    exact h3
  · intro h
    exact Nat.mod_eq_of_lt h

/-- C9.  Idempotent registries: a second `create_counter` with the same name
on any meter returns the same handle (the same underlying counter, so adds
through either handle hit the same state) and leaves the registry unchanged
— never a fresh counter; likewise a second `get_meter` on any provider. -/
theorem C9_idempotent_registries (m : MeterInner) (p : MeterProviderInner)
    (n : Str) :
    MeterInner.create_counter (MeterInner.create_counter m n).2 n
      = MeterInner.create_counter m n
    ∧ MeterProviderInner.get_meter (MeterProviderInner.get_meter p n).2 n
      = MeterProviderInner.get_meter p n := by
  constructor
  · cases h : lookupStr m.counters n with
    | some id => simp [MeterInner.create_counter, h]
    | none => simp [MeterInner.create_counter, h, lookupStr_append_self h]
  · cases h : lookupStr p.meters n with
    | some id => simp [MeterProviderInner.get_meter, h]
    | none => simp [MeterProviderInner.get_meter, h, lookupStr_append_self h]

/-- C7 (code bug).  The code's float handling at the failing inputs: hashing
is bit-pattern based (`F64Hashable` feeds `to_bits` into the hasher, so the
`0.0` and `-0.0` pairs feed different streams whose `DefaultHasher` values
differ), but `KeyValue` equality is the derived IEEE `PartialEq`: the NaN
pair is unequal to itself despite identical bit patterns, and the `0.0` pair
equals the `-0.0` pair despite different bit patterns.  Equality and hashing
are therefore inconsistent with each other, contradicting the claim. -/
theorem C7_float_equality_is_ieee_not_bitpattern :
    f64IsNaN nanBits = true
    ∧ kvEqRust kvNaN kvNaN = false
    ∧ kvEqRust kvZero kvNegZero = true
    ∧ kvZero.value ≠ kvNegZero.value
    ∧ defaultHash (kvBytes kvZero) ≠ defaultHash (kvBytes kvNegZero) := by
  decide

/-- C8 counterexample.  The singleton sequences `[("k", 0.0)]` and
`[("k", -0.0)]` are equal element-for-element in the same order under the
code's own `KeyValue` equality (IEEE `==`), yet the two `MetricAttributes`
built from them are unequal, because the derived `PartialEq` also compares
the precomputed hashes and those are computed from the distinct bit
patterns.  So identity equality is not "exactly sequence equality". -/
theorem C8_counterexample :
    seqEqRust [kvZero] [kvNegZero] = true
    ∧ maEq (MetricAttributes.mk' [kvZero]) (MetricAttributes.mk' [kvNegZero])
        = false := by
  decide

/-- C8 (amended).  Identity equality is sequence equality *and* equality of
the precomputed hashes: for attribute lists without `f64` content it
coincides exactly with sequence equality (sequence equality then forces
equal hash streams), and whenever the sequences are unequal — in particular
for distinct sequences with an identical combined hash — the identities stay
unequal, so hash-colliding sequences are never merged. -/
theorem C8_identity_equality (a b : List KeyValue) :
    (noF64 a = true →
      maEq (MetricAttributes.mk' a) (MetricAttributes.mk' b) = seqEqRust a b)
    ∧ (seqEqRust a b = false →
      maEq (MetricAttributes.mk' a) (MetricAttributes.mk' b) = false) := by
  constructor
  · intro hnf
    cases h : seqEqRust a b with
    | false => simp [maEq, MetricAttributes.mk', h]
    | true =>
      simp [maEq, MetricAttributes.mk', h, calculate_hash_eq_of_seqEq hnf h]
  · intro h
    simp [maEq, MetricAttributes.mk', h]

/-- Witness for C8 (amended) at concrete float-free inputs: equal-sequence
inputs give equal identities, unequal sequences give unequal identities. -/
theorem C8_identity_equality_witness :
    (noF64 attrs12 = true
      ∧ maEq (MetricAttributes.mk' attrs12) (MetricAttributes.mk' attrs21)
          = seqEqRust attrs12 attrs21)
    ∧ (seqEqRust attrs12 attrs21 = false
      ∧ maEq (MetricAttributes.mk' attrs12) (MetricAttributes.mk' attrs21)
          = false) :=
  ⟨⟨by decide, (C8_identity_equality attrs12 attrs21).1 (by decide)⟩,
   ⟨by decide, (C8_identity_equality attrs12 attrs21).2 (by decide)⟩⟩

/-- C2 (code bug).  `MetricPointInner::new` initializes the backing sum to
1, so the accumulator created by the first-ever labeled `add(10, {k1:v1})`
on a fresh counter holds 11 and the snapshot reports 11, not the submitted
10 the claim (and the spec's own §9 note) requires. -/
theorem C2_accumulator_initialized_to_one :
    metricPointNew = 1
    ∧ (CounterInner.add (CounterInner.new [99]) 10 [kvK1V1]).points = [11]
    ∧ ¬ ((CounterInner.add (CounterInner.new [99]) 10 [kvK1V1]).points = [10])
    ∧ (CounterInner.collect
        (CounterInner.add (CounterInner.new [99]) 10 [kvK1V1])).1.metric_points
        = [([kvK1V1], 11), ([], 0)] := by
  decide

/-- C4 counterexample.  The logical set `{k1:v1, k2:v2}` observed under
`K = 2` distinct orderings (`[k2,k1]` then `[k1,k2]`) occupies 2 map slots,
not `K + 1 = 3`: the second ordering coalesces through the sorted key
without ever being inserted under its own as-submitted identity. -/
theorem C4_counterexample :
    attrs21 ≠ attrs12
    ∧ (runAdds (CounterInner.new [99])
        [(1, attrs21), (1, attrs12)]).metric_points_map.length = 2
    ∧ ¬ ((runAdds (CounterInner.new [99])
        [(1, attrs21), (1, attrs12)]).metric_points_map.length = 2 + 1) := by
  decide

/-- C4 (amended).  On a fresh counter, for a first labeled `add` of a
non-empty list `a` whose pairs all equal themselves under the code's own
`KeyValue` equality (NaN-free content), followed by `add`s of non-empty
lists whose key-sorted copy equals that of `a`, the map holds exactly 2
slots — the first as-submitted ordering and the canonical sorted one — or
exactly 1 when those two identities coincide (first ordering already
sorted), however many distinct orderings were observed: only the first
`add` inserts, later distinct orderings never add slots, and every slot
references the one accumulator (arena index 0, the counter's only
accumulator). -/
theorem C4_dual_key_slots (nm : Str) (v₀ : Nat) (a : List KeyValue)
    (rest : List (Nat × List KeyValue)) (ha : a ≠ [])
    (hga : goodList a = true)
    (hrest : ∀ p ∈ rest, p.2 ≠ [] ∧ sortByKey p.2 = sortByKey a) :
    (runAdds (CounterInner.new nm) ((v₀, a) :: rest)).metric_points_map
      = (if maEq (MetricAttributes.mk' (sortByKey a)) (MetricAttributes.mk' a)
         then [(MetricAttributes.mk' a, 0)]
         else [(MetricAttributes.mk' a, 0),
               (MetricAttributes.mk' (sortByKey a), 0)])
    ∧ (runAdds (CounterInner.new nm) ((v₀, a) :: rest)).points.length = 1 := by
  rw [runAdds_inv nm v₀ rest ha hga hrest]
  exact ⟨rfl, rfl⟩

/-- Witness for C4 (amended): two distinct orderings of `{k1,k2}` leave the
map with the first ordering's slot plus the sorted slot, one accumulator. -/
theorem C4_dual_key_slots_witness :
    (attrs21 ≠ [] ∧ goodList attrs21 = true)
    ∧ ((runAdds (CounterInner.new [99])
          ((1, attrs21) :: [(1, attrs12)])).metric_points_map
        = (if maEq (MetricAttributes.mk' (sortByKey attrs21))
              (MetricAttributes.mk' attrs21)
           then [(MetricAttributes.mk' attrs21, 0)]
           else [(MetricAttributes.mk' attrs21, 0),
                 (MetricAttributes.mk' (sortByKey attrs21), 0)])
      ∧ (runAdds (CounterInner.new [99])
          ((1, attrs21) :: [(1, attrs12)])).points.length = 1) :=
  ⟨⟨by decide, by decide⟩,
   C4_dual_key_slots [99] 1 attrs21 [(1, attrs12)] (by decide) (by decide)
     (by decide)⟩

/-- C1 counterexample.  The spec scenario `add(10,{k1:v1,k2:v2})`,
`add(10,{k2:v2,k1:v1})`, `add(10,{k1:v1,k2:v2})`, `collect()`: the total
accumulated value across all rows whose attribute sequence is a permutation
of the submitted multiset is 31, not the claimed 30, because the single
accumulator backing the set starts at 1. -/
theorem C1_counterexample :
    totalForBase
        (CounterInner.collect (runAdds (CounterInner.new [99])
          [(10, attrs12), (10, attrs21), (10, attrs12)])).1 attrs12 = 31
    ∧ ¬ (totalForBase
        (CounterInner.collect (runAdds (CounterInner.new [99])
          [(10, attrs12), (10, attrs21), (10, attrs12)])).1 attrs12 = 30) := by
  decide

/-- C1 (amended).  For any submissions that are permutations of one fixed
multiset (NaN-free, all sorting to the same key-sorted copy) on a fresh
counter, the collected total across that multiset's rows is
`R * ((1 + Σ submitted) mod 2^64 mod 2^32)` where `R` is 1 when the first
ordering's identity coincides with the sorted identity and 2 otherwise: the
submitted sum is inflated by the accumulator's initial value 1, and the two
aliased slots each report the full sum when they are distinct. -/
theorem C1_order_independence_amended (nm : Str) (v₀ : Nat)
    (a : List KeyValue) (rest : List (Nat × List KeyValue)) (ha : a ≠ [])
    (hga : goodList a = true)
    (hrest : ∀ p ∈ rest, p.2 ≠ [] ∧ sortByKey p.2 = sortByKey a) :
    totalForBase
        (CounterInner.collect
          (runAdds (CounterInner.new nm) ((v₀, a) :: rest))).1 a
      = (if maEq (MetricAttributes.mk' (sortByKey a)) (MetricAttributes.mk' a)
         then 1 else 2)
        * ((1 + v₀ + sumVals rest) % M64 % M32) := by
  rw [runAdds_inv nm v₀ rest ha hga hrest]
  cases hc : maEq (MetricAttributes.mk' (sortByKey a))
      (MetricAttributes.mk' a) with
  | true =>
    simp only [CounterInner.collect, mapZero, hc, if_true]
    simp [totalForBase, permOf_refl, permOf_nil_of_ne ha, metricPointGetSum,
      MetricAttributes.mk']
  | false =>
    simp only [CounterInner.collect, mapZero, hc, Bool.false_eq_true, if_false]
    simp [totalForBase, permOf_refl, permOf_sortByKey, permOf_nil_of_ne ha,
      metricPointGetSum, MetricAttributes.mk']
    omega

/-- Witness for C1 (amended): two orderings of `{k1,k2}`, first unsorted, 10
added each time; the total is `2 * 21 = 42`. -/
theorem C1_order_independence_amended_witness :
    (attrs21 ≠ [] ∧ goodList attrs21 = true)
    ∧ totalForBase
        (CounterInner.collect
          (runAdds (CounterInner.new [99])
            ((10, attrs21) :: [(10, attrs12)]))).1 attrs21
      = (if maEq (MetricAttributes.mk' (sortByKey attrs21))
            (MetricAttributes.mk' attrs21)
         then 1 else 2)
        * ((1 + 10 + sumVals [(10, attrs12)]) % M64 % M32) :=
  ⟨⟨by decide, by decide⟩,
   C1_order_independence_amended [99] 10 attrs21 [(10, attrs12)] (by decide)
     (by decide) (by decide)⟩

/-- C5 counterexample.  For the NaN-valued attribute list the complete-miss
path creates the accumulator (one accumulator, `1 + 5` inside) and inserts
it twice, but afterwards the as-submitted identity does *not* look up to it:
the derived IEEE equality makes the NaN identity unequal to itself, so the
lookup misses and the claim's "afterwards both identities look up in the map
to that same accumulator" fails. -/
theorem C5_counterexample :
    lookupMA (CounterInner.new [99]).metric_points_map
        (MetricAttributes.mk' [kvNaN]) = none
    ∧ lookupMA (CounterInner.new [99]).metric_points_map
        (MetricAttributes.mk' (sortByKey [kvNaN])) = none
    ∧ (CounterInner.add (CounterInner.new [99]) 5 [kvNaN]).points = [6]
    ∧ lookupMA
        (CounterInner.add (CounterInner.new [99]) 5 [kvNaN]).metric_points_map
        (MetricAttributes.mk' [kvNaN]) = none := by
  decide

/-- C5 (amended).  On a complete miss (both lookups `none`) with non-empty,
NaN-free attributes, `add` creates exactly one accumulator holding its
initial value 1 plus `v` (the value is added once, never doubled), appends
it to the arena, and afterwards both the as-submitted and the key-sorted
identity look up in the map to that same single new accumulator; the
zero-attribute accumulator is untouched. -/
theorem C5_complete_miss_insertion (s : CounterInner) (v : Nat)
    (attrs : List KeyValue) (h0 : attrs ≠ []) (hgood : goodList attrs = true)
    (h1 : lookupMA s.metric_points_map (MetricAttributes.mk' attrs) = none)
    (h2 : lookupMA s.metric_points_map
        (MetricAttributes.mk' (sortByKey attrs)) = none) :
    (CounterInner.add s v attrs).points = s.points ++ [(1 + v) % M64]
    ∧ lookupMA (CounterInner.add s v attrs).metric_points_map
        (MetricAttributes.mk' attrs) = some s.points.length
    ∧ lookupMA (CounterInner.add s v attrs).metric_points_map
        (MetricAttributes.mk' (sortByKey attrs)) = some s.points.length
    ∧ (CounterInner.add s v attrs).zero_attribute_point
        = s.zero_attribute_point := by
  have hAA := maEq_mk_self hgood
  have hSS := maEq_mk_self (goodList_sortByKey hgood)
  cases attrs with
  | nil => exact absurd rfl h0
  | cons x xs =>
    rw [CounterInner.add_cons]
    simp only [h1, h2]
    refine ⟨rfl, ?_, ?_, trivial⟩
    · rw [insertMA_of_none h1, insertMA_append_of_none h2,
        lookupMA_append_of_none h1]
      cases hc : maEq (MetricAttributes.mk' (sortByKey (x :: xs)))
          (MetricAttributes.mk' (x :: xs)) with
      | true => simp [insertMA, hc, lookupMA, hAA]
      | false => simp [insertMA, hc, lookupMA, hAA]
    · rw [insertMA_of_none h1, insertMA_append_of_none h2,
        lookupMA_append_of_none h2]
      cases hc : maEq (MetricAttributes.mk' (sortByKey (x :: xs)))
          (MetricAttributes.mk' (x :: xs)) with
      | true => simp [insertMA, hc, lookupMA]
      | false => simp [insertMA, hc, lookupMA, hSS]

/-- Witness for C5 (amended) on a fresh counter with the unsorted ordering. -/
theorem C5_complete_miss_insertion_witness :
    (attrs21 ≠ [] ∧ goodList attrs21 = true
      ∧ lookupMA (CounterInner.new [99]).metric_points_map
          (MetricAttributes.mk' attrs21) = none
      ∧ lookupMA (CounterInner.new [99]).metric_points_map
          (MetricAttributes.mk' (sortByKey attrs21)) = none)
    ∧ ((CounterInner.add (CounterInner.new [99]) 7 attrs21).points
        = (CounterInner.new [99]).points ++ [(1 + 7) % M64]
      ∧ lookupMA
          (CounterInner.add (CounterInner.new [99]) 7 attrs21).metric_points_map
          (MetricAttributes.mk' attrs21)
          = some (CounterInner.new [99]).points.length
      ∧ lookupMA
          (CounterInner.add (CounterInner.new [99]) 7 attrs21).metric_points_map
          (MetricAttributes.mk' (sortByKey attrs21))
          = some (CounterInner.new [99]).points.length
      ∧ (CounterInner.add (CounterInner.new [99]) 7 attrs21).zero_attribute_point
          = (CounterInner.new [99]).zero_attribute_point) :=
  ⟨⟨by decide, by decide, by decide, by decide⟩,
   C5_complete_miss_insertion (CounterInner.new [99]) 7 attrs21 (by decide)
     (by decide) (by decide) (by decide)⟩
